import Mathlib

/-!
Verification of the site-scraper core of `gaby-website-admin`
(`src/unnamed/part_000`, a Node.js crawl-and-FAQ-dataset script).

Strings are modelled as Lean `String`s manipulated through their
underlying character lists; JavaScript string operations (`slice`,
`trim`, `startsWith`, `lastIndexOf`, `split`) are modelled by the
corresponding character-list operations.
-/

namespace Scraper

/-- Character class of the JavaScript regex `\s` restricted to the ASCII
range (the non-ASCII whitespace code points it also matches never play a
role in the properties below). -/
def isJsSpace (c : Char) : Bool :=
  c = ' ' || c = '\t' || c = '\n' || c = '\r' || c = '\x0b' || c = '\x0c'

/-- Model of `str.replace(/\s+/g, ' ')`: every maximal run of whitespace
becomes a single space.  The boolean argument records whether the
previous character belonged to a whitespace run. -/
def collapseWsAux : List Char → Bool → List Char
  | [], _ => []
  | c :: rest, prevWs =>
    if isJsSpace c then
      if prevWs then collapseWsAux rest true
      else ' ' :: collapseWsAux rest true
    else c :: collapseWsAux rest false

/-- Model of `String.prototype.trim` on the character list. -/
def trimChars (cs : List Char) : List Char :=
  ((cs.dropWhile isJsSpace).reverse.dropWhile isJsSpace).reverse

/-- Model of `s.trim()`. -/
def jsTrim (s : String) : String :=
  String.mk (trimChars s.data)

/-- Model of `cleanText` (src/unnamed/part_000 lines 544-546): collapse
whitespace runs, delete every zero-width space (U+200B, not matched by
`\s`, hence removed after the collapse exactly as in the source), then
trim. -/
def cleanText (s : String) : String :=
  String.mk (trimChars ((collapseWsAux s.data false).filter (fun c => c ≠ '\u200B')))

/-- Model of `String.prototype.lastIndexOf` for a single character:
index of the last occurrence, `-1` when the character does not occur. -/
def lastIdxOf (c : Char) : List Char → Int
  | [] => -1
  | a :: rest =>
    let r := lastIdxOf c rest
    if 0 ≤ r then r + 1
    else if a = c then 0 else -1

/-- Model of `text.slice(0, n)` for a natural bound `n`. -/
def strTake (s : String) (n : Nat) : String :=
  String.mk (s.data.take n)

/-- Model of `truncate` (src/unnamed/part_000 lines 548-556).  The guard
`!text || text.length <= max` collapses to the length test because the
empty string has length `0 ≤ max`.  The float comparison
`lastPeriod > max * 0.6` is modelled by the exact rational comparison
`5 * lastPeriod > 3 * max`; for every bound the source passes (320, 600,
1200) the double-precision product `max * 0.6` rounds to exactly the
integer `3 * max / 5`, so the two conditions agree. -/
def truncate (text : String) (max : Nat) : String :=
  if text.length ≤ max then text
  else
    let shortened := strTake text max
    let lastPeriod := lastIdxOf '.' shortened.data
    if 3 * (max : Int) < 5 * lastPeriod then
      jsTrim (strTake shortened (lastPeriod.toNat + 1)) ++ " …"
    else
      jsTrim shortened ++ " …"

/-- Extracted content section (`{heading, content, snippet}`). -/
structure PageSection where
  heading : String
  content : String
  snippet : String
deriving DecidableEq

/-- Page produced by `extractPageContent` (src/unnamed/part_000 lines
212-231). -/
structure Page where
  url : String
  title : String
  description : String
  summary : String
  sections : List PageSection
  links : List String
  wordCount : Nat
deriving DecidableEq

/-- Model of `needsBrowserRender` (src/unnamed/part_000 lines 315-319).
In the source `page.summary ? page.summary.length : 0` equals the length
of the summary string also when the summary is empty, and
`page.wordCount || 0` is the word count itself, so both collapse to the
plain field reads. -/
def needsBrowserRender (page : Page) : Bool :=
  page.sections.length == 0 &&
    (decide (page.summary.length < 160) || decide (page.wordCount < 40))

/-! Basic length facts about the string helpers. -/

theorem trimChars_length_le (cs : List Char) : (trimChars cs).length ≤ cs.length := by
  unfold trimChars
  calc ((cs.dropWhile isJsSpace).reverse.dropWhile isJsSpace).reverse.length
      = ((cs.dropWhile isJsSpace).reverse.dropWhile isJsSpace).length := by
        rw [List.length_reverse]
    _ ≤ (cs.dropWhile isJsSpace).reverse.length :=
        (List.dropWhile_sublist _).length_le
    _ = (cs.dropWhile isJsSpace).length := by rw [List.length_reverse]
    _ ≤ cs.length := (List.dropWhile_sublist _).length_le

theorem jsTrim_length_le (s : String) : (jsTrim s).length ≤ s.length :=
  trimChars_length_le s.data

theorem strLength_mk (l : List Char) : (String.mk l).length = l.length := rfl

theorem strTake_length_le (s : String) (n : Nat) : (strTake s n).length ≤ n := by
  show (s.data.take n).length ≤ n
  rw [List.length_take]
  exact Nat.min_le_left _ _

theorem strTake_length_of_le (s : String) (n : Nat) (h : n ≤ s.length) :
    (strTake s n).length = n := by
  show (s.data.take n).length = n
  rw [List.length_take]
  exact Nat.min_eq_left h

theorem length_append_str (s t : String) : (s ++ t).length = s.length + t.length := by
  cases s with
  | mk a => cases t with
    | mk b =>
      show (String.mk (a ++ b)).length = _
      simp [String.length]

theorem lastIdxOf_lt_length (c : Char) (cs : List Char) :
    lastIdxOf c cs < (cs.length : Int) := by
  induction cs with
  | nil => simp [lastIdxOf]
  | cons a rest ih =>
    simp only [lastIdxOf, List.length_cons]
    split
    · push_cast
      omega
    · split <;> push_cast <;> omega

/-- Shared bound: `truncate` never returns more than `max + 2`
characters (the sliced prefix, trimmed, plus the two-character
`" …"` marker). -/
theorem truncate_length_le (text : String) (max : Nat) :
    (truncate text max).length ≤ max + 2 := by
  unfold truncate
  split
  · omega
  · rename_i hlen
    have hm : max ≤ text.length := by omega
    have hshort : (strTake text max).length = max := strTake_length_of_le text max hm
    show (if 3 * (max : Int) < 5 * lastIdxOf '.' (strTake text max).data then
        jsTrim (strTake (strTake text max) ((lastIdxOf '.' (strTake text max).data).toNat + 1)) ++ " …"
      else jsTrim (strTake text max) ++ " …").length ≤ max + 2
    split
    · rename_i hcond
      have hlp := lastIdxOf_lt_length '.' (strTake text max).data
      have hlpnn : 0 ≤ lastIdxOf '.' (strTake text max).data := by
        by_contra hneg
        push_neg at hneg
        have : 5 * lastIdxOf '.' (strTake text max).data < 0 := by omega
        omega
      have hdata : ((strTake text max).data.length : Int) = (max : Int) := by
        have := hshort
        simp only [String.length] at this
        exact_mod_cast this
      rw [length_append_str]
      have h2 : (" …" : String).length = 2 := by decide
      rw [h2]
      have hk : (lastIdxOf '.' (strTake text max).data).toNat + 1 ≤ max := by
        have : lastIdxOf '.' (strTake text max).data < (max : Int) := by
          rw [hdata] at hlp
          exact hlp
        omega
      have := le_trans
        (jsTrim_length_le
          (strTake (strTake text max) ((lastIdxOf '.' (strTake text max).data).toNat + 1)))
        (strTake_length_le (strTake text max)
          ((lastIdxOf '.' (strTake text max).data).toNat + 1))
      omega
    · rw [length_append_str]
      have h2 : (" …" : String).length = 2 := by decide
      rw [h2]
      have := le_trans (jsTrim_length_le (strTake text max)) (strTake_length_le text max)
      omega

/-- C1: the render-need heuristic returns true for a Page exactly when
the page has zero extracted sections and (its summary is shorter than
160 characters or its word count is below 40); in particular it returns
true for every page with zero sections and a 30-character summary, and
false for every page with a 200-character summary and 3 sections. -/
theorem needsBrowserRender_spec :
    (∀ p : Page, needsBrowserRender p = true ↔
      (p.sections.length = 0 ∧ (p.summary.length < 160 ∨ p.wordCount < 40)))
    ∧ (∀ p : Page, p.sections.length = 0 → p.summary.length = 30 →
        needsBrowserRender p = true)
    ∧ (∀ p : Page, p.summary.length = 200 → p.sections.length = 3 →
        needsBrowserRender p = false) := by
  refine ⟨fun p => ?_, fun p h0 h30 => ?_, fun p h200 h3 => ?_⟩
  · simp [needsBrowserRender]
  · simp [needsBrowserRender, h0, h30]
  · simp [needsBrowserRender, h3]

/-- Page with no sections and a 30-character summary. -/
def pageEmptyish : Page where
  url := "https://x.com/"
  title := "T"
  description := ""
  summary := String.mk (List.replicate 30 'a')
  sections := []
  links := []
  wordCount := 5

/-- Page with three sections and a 200-character summary. -/
def pageRich : Page where
  url := "https://x.com/"
  title := "T"
  description := ""
  summary := String.mk (List.replicate 200 'a')
  sections := List.replicate 3 ⟨"H", "c", "c"⟩
  links := []
  wordCount := 100

/-- Witness for C1 at two concrete pages. -/
theorem needsBrowserRender_spec_witness :
    needsBrowserRender pageEmptyish = true ∧ needsBrowserRender pageRich = false :=
  ⟨needsBrowserRender_spec.2.1 pageEmptyish (by simp [pageEmptyish])
      (by show (String.mk (List.replicate 30 'a')).length = 30
          rw [strLength_mk, List.length_replicate]),
   needsBrowserRender_spec.2.2 pageRich
      (by show (String.mk (List.replicate 200 'a')).length = 200
          rw [strLength_mk, List.length_replicate])
      (by simp [pageRich])⟩

/-- C10: for a bound of at least 1, `truncate` returns the text
unchanged when it already fits in the bound, and otherwise returns a
string of length at most `max + 2` (sliced prefix, trimmed, plus the
appended ellipsis marker). -/
theorem truncate_spec (text : String) (max : Nat) (hmax : 1 ≤ max) :
    (text.length ≤ max → truncate text max = text)
    ∧ (max < text.length → (truncate text max).length ≤ max + 2) := by
  constructor
  · intro h
    unfold truncate
    simp [h]
  · intro _
    exact truncate_length_le text max

/-- Witness for C10 at two concrete strings. -/
theorem truncate_spec_witness :
    truncate "abc" 5 = "abc" ∧ (truncate "abcdefgh" 5).length ≤ 5 + 2 :=
  ⟨(truncate_spec "abc" 5 (by decide)).1 (by decide),
   (truncate_spec "abcdefgh" 5 (by decide)).2 (by decide)⟩

/-! URL model.  `normalizeUrl` manipulates a parsed WHATWG `URL` object;
the parser below models that object for well-formed absolute URLs of the
shape `scheme://host[/path][?query][#fragment]` (no dot-segment
resolution, percent-encoding or case normalization, none of which the
normalizer itself performs). -/

/-- Parsed absolute URL: the components of the platform `URL` object
that `normalizeUrl` reads and writes. -/
structure UrlModel where
  scheme : String
  host : String
  pathname : String
  search : String
  hash : String
deriving DecidableEq

/-- Characters that end the host component. -/
def urlStopChar (c : Char) : Bool :=
  c == '/' || c == '?' || c == '#'

/-- Characters that end the pathname component. -/
def queryStopChar (c : Char) : Bool :=
  c == '?' || c == '#'

/-- Splits the part after `scheme://` into host, pathname, search and
hash; `none` when the host is empty. -/
def parseAfterScheme (scheme rest : List Char) : Option UrlModel :=
  if scheme.isEmpty then none
  else
    let host := rest.takeWhile (fun c => !urlStopChar c)
    if host.isEmpty then none
    else
      let rest1 := rest.dropWhile (fun c => !urlStopChar c)
      let path := rest1.takeWhile (fun c => !queryStopChar c)
      let rest2 := rest1.dropWhile (fun c => !queryStopChar c)
      some { scheme := String.mk scheme
             host := String.mk host
             pathname := if path.isEmpty then "/" else String.mk path
             search := String.mk (rest2.takeWhile (fun c => c != '#'))
             hash := String.mk (rest2.dropWhile (fun c => c != '#')) }

/-- Modelled URL parser.  Returns `none` when the input lacks a
`scheme://` prelude or a host, mirroring the `new URL(input)` throw that
`normalizeUrl` converts to `null`. -/
def parseUrl (input : String) : Option UrlModel :=
  match input.data.dropWhile (fun c => c != ':') with
  | ':' :: '/' :: '/' :: rest =>
    parseAfterScheme (input.data.takeWhile (fun c => c != ':')) rest
  | _ => none

/-- Serialization matching `URL.prototype.toString` on the modelled
components (the pathname always starts with a slash, so no separator is
inserted). -/
def urlToString (u : UrlModel) : String :=
  u.scheme ++ "://" ++ u.host ++ u.pathname ++ u.search ++ u.hash

/-- Origin of a parsed URL, as read by `new URL(x).origin` in
`buildConfig` (src/unnamed/part_000 line 75). -/
def urlOrigin (u : UrlModel) : String :=
  u.scheme ++ "://" ++ u.host

/-- Origin of a URL string, `none` when unparseable. -/
def originOf (s : String) : Option String :=
  (parseUrl s).map urlOrigin

/-- Model of `url.pathname.endsWith('/')`. -/
def pathEndsSlash (p : String) : Bool :=
  p.data.getLast? == some '/'

/-- The mutation `normalizeUrl` performs on the parsed URL object:
clear the fragment, then strip one trailing slash from a non-root
pathname (src/unnamed/part_000 lines 573-576). -/
def stripUrl (u : UrlModel) : UrlModel :=
  let u1 : UrlModel := { u with hash := "" }
  if u1.pathname ≠ "/" ∧ pathEndsSlash u1.pathname then
    { u1 with pathname := String.mk u1.pathname.data.dropLast }
  else u1

/-- Model of `normalizeUrl` (src/unnamed/part_000 lines 570-581). -/
def normalizeUrl (input : String) : Option String :=
  (parseUrl input).map (fun u => urlToString (stripUrl u))

/-- A pathname ending in two consecutive slashes; `normalizeUrl` strips
only one of them per application. -/
def pathEndsDoubleSlash (p : String) : Prop :=
  p.data.getLast? = some '/' ∧ p.data.dropLast.getLast? = some '/'

instance (p : String) : Decidable (pathEndsDoubleSlash p) := by
  unfold pathEndsDoubleSlash
  infer_instance

/-! List and string facts used for the parser round-trip. -/

theorem strData_append (s t : String) : (s ++ t).data = s.data ++ t.data := by
  cases s
  cases t
  rfl

theorem strMk_data (s : String) : String.mk s.data = s := by
  cases s
  rfl

theorem strEq_empty_iff (s : String) : s = "" ↔ s.data = [] := by
  constructor
  · intro h
    subst h
    rfl
  · intro h
    cases s with
    | mk l =>
      cases (show l = [] from h)
      rfl

/-- The list is empty or starts with a character rejected by `p`. -/
def stopsAt (p : Char → Bool) (b : List Char) : Prop :=
  ∀ c, b.head? = some c → p c = false

theorem takeWhile_stopsAt (p : Char → Bool) (b : List Char) (h : stopsAt p b) :
    b.takeWhile p = [] := by
  cases b with
  | nil => rfl
  | cons x xs =>
    have hx := h x rfl
    simp [List.takeWhile_cons, hx]

theorem dropWhile_stopsAt (p : Char → Bool) (b : List Char) (h : stopsAt p b) :
    b.dropWhile p = b := by
  cases b with
  | nil => rfl
  | cons x xs =>
    have hx := h x rfl
    simp [List.dropWhile_cons, hx]

theorem takeWhile_append_stop (p : Char → Bool) (a b : List Char)
    (ha : ∀ x ∈ a, p x = true) (hb : stopsAt p b) :
    (a ++ b).takeWhile p = a := by
  induction a with
  | nil => simpa using takeWhile_stopsAt p b hb
  | cons x xs ih =>
    have hx : p x = true := ha x (by simp)
    simp only [List.cons_append, List.takeWhile_cons, hx, if_true]
    rw [ih (fun y hy => ha y (by simp [hy]))]

theorem dropWhile_append_stop (p : Char → Bool) (a b : List Char)
    (ha : ∀ x ∈ a, p x = true) (hb : stopsAt p b) :
    (a ++ b).dropWhile p = b := by
  induction a with
  | nil => simpa using dropWhile_stopsAt p b hb
  | cons x xs ih =>
    have hx : p x = true := ha x (by simp)
    simp only [List.cons_append, List.dropWhile_cons, hx, if_true]
    exact ih (fun y hy => ha y (by simp [hy]))

theorem mem_takeWhile_true (p : Char → Bool) (l : List Char) (a : Char)
    (h : a ∈ l.takeWhile p) : p a = true := by
  induction l with
  | nil => simp [List.takeWhile] at h
  | cons x xs ih =>
    rw [List.takeWhile_cons] at h
    cases hx : p x with
    | true =>
      rw [hx] at h
      simp at h
      rcases h with h | h
      · subst h
        exact hx
      · exact ih h
    | false =>
      rw [hx] at h
      simp at h

theorem head?_takeWhile (p : Char → Bool) (l : List Char) (x : Char)
    (h : (l.takeWhile p).head? = some x) : l.head? = some x ∧ p x = true := by
  cases l with
  | nil => simp [List.takeWhile] at h
  | cons y ys =>
    rw [List.takeWhile_cons] at h
    cases hy : p y with
    | true =>
      rw [hy] at h
      simp at h
      subst h
      exact ⟨rfl, hy⟩
    | false =>
      rw [hy] at h
      simp at h

theorem head?_dropWhile_not (p : Char → Bool) (l : List Char) (x : Char)
    (h : (l.dropWhile p).head? = some x) : p x = false := by
  induction l with
  | nil => simp [List.dropWhile] at h
  | cons y ys ih =>
    rw [List.dropWhile_cons] at h
    cases hy : p y with
    | true =>
      rw [hy] at h
      simp at h
      exact ih h
    | false =>
      rw [hy] at h
      simp at h
      subst h
      exact hy

/-- Well-formedness of a parsed URL: the shape every `parseUrl` result
has, and exactly what the serializer needs for the round-trip. -/
structure UrlWf (u : UrlModel) : Prop where
  scheme_ne : u.scheme.data ≠ []
  scheme_ok : ∀ c ∈ u.scheme.data, c ≠ ':'
  host_ne : u.host.data ≠ []
  host_ok : ∀ c ∈ u.host.data, urlStopChar c = false
  path_head : u.pathname.data.head? = some '/'
  path_ok : ∀ c ∈ u.pathname.data, queryStopChar c = false
  search_head : u.search.data = [] ∨ u.search.data.head? = some '?'
  search_ok : ∀ c ∈ u.search.data, c ≠ '#'
  hash_head : u.hash.data = [] ∨ u.hash.data.head? = some '#'

theorem urlToString_data (u : UrlModel) :
    (urlToString u).data = u.scheme.data ++ ':' :: '/' :: '/' ::
      (u.host.data ++ (u.pathname.data ++ (u.search.data ++ u.hash.data))) := by
  have hc : ("://" : String).data = [ ':', '/', '/' ] := rfl
  simp [urlToString, strData_append, hc]

theorem urlStop_not_query_slash (c : Char) (h1 : urlStopChar c = true)
    (h2 : queryStopChar c = false) : c = '/' := by
  simp [urlStopChar, queryStopChar] at h1 h2
  rcases h1 with h | h
  · rcases h with h | h
    · exact h
    · exact absurd h h2.1
  · exact absurd h h2.2

theorem queryStop_not_hash_question (c : Char) (h1 : queryStopChar c = true)
    (h2 : c ≠ '#') : c = '?' := by
  simp [queryStopChar] at h1
  rcases h1 with h | h
  · exact h
  · exact absurd h h2

theorem parseAfterScheme_eq (u : UrlModel) (h : UrlWf u) :
    parseAfterScheme u.scheme.data
      (u.host.data ++ (u.pathname.data ++ (u.search.data ++ u.hash.data))) = some u := by
  have hph := h.path_head
  obtain ⟨pt, hpd⟩ : ∃ t, u.pathname.data = '/' :: t := by
    cases hpd : u.pathname.data with
    | nil =>
      rw [hpd] at hph
      simp at hph
    | cons c t =>
      rw [hpd] at hph
      simp at hph
      subst hph
      exact ⟨t, rfl⟩
  have hsne : u.scheme.data.isEmpty = false := by
    cases hs : u.scheme.data
    · exact absurd hs h.scheme_ne
    · rfl
  have hhne : u.host.data.isEmpty = false := by
    cases hs : u.host.data
    · exact absurd hs h.host_ne
    · rfl
  have hhostAll : ∀ x ∈ u.host.data, (fun c => !urlStopChar c) x = true := by
    intro x hx
    simp [h.host_ok x hx]
  have hstopHost :
      stopsAt (fun c => !urlStopChar c)
        (u.pathname.data ++ (u.search.data ++ u.hash.data)) := by
    intro c hc
    rw [hpd] at hc
    simp at hc
    subst hc
    decide
  have htakeHost :
      (u.host.data ++ (u.pathname.data ++ (u.search.data ++ u.hash.data))).takeWhile
        (fun c => !urlStopChar c) = u.host.data :=
    takeWhile_append_stop _ _ _ hhostAll hstopHost
  have hdropHost :
      (u.host.data ++ (u.pathname.data ++ (u.search.data ++ u.hash.data))).dropWhile
        (fun c => !urlStopChar c) = u.pathname.data ++ (u.search.data ++ u.hash.data) :=
    dropWhile_append_stop _ _ _ hhostAll hstopHost
  have hpathAll : ∀ x ∈ u.pathname.data, (fun c => !queryStopChar c) x = true := by
    intro x hx
    simp [h.path_ok x hx]
  have hstopPath : stopsAt (fun c => !queryStopChar c) (u.search.data ++ u.hash.data) := by
    intro c hc
    cases hsd : u.search.data with
    | nil =>
      rw [hsd] at hc
      simp only [List.nil_append] at hc
      rcases h.hash_head with hhe | hhh
      · rw [hhe] at hc
        simp at hc
      · rw [hc] at hhh
        simp at hhh
        subst hhh
        decide
    | cons a t =>
      rw [hsd] at hc
      simp at hc
      subst hc
      rcases h.search_head with hse | hsh
      · rw [hsd] at hse
        simp at hse
      · rw [hsd] at hsh
        simp at hsh
        subst hsh
        decide
  have htakePath :
      (u.pathname.data ++ (u.search.data ++ u.hash.data)).takeWhile
        (fun c => !queryStopChar c) = u.pathname.data :=
    takeWhile_append_stop _ _ _ hpathAll hstopPath
  have hdropPath :
      (u.pathname.data ++ (u.search.data ++ u.hash.data)).dropWhile
        (fun c => !queryStopChar c) = u.search.data ++ u.hash.data :=
    dropWhile_append_stop _ _ _ hpathAll hstopPath
  have hsearchAll : ∀ x ∈ u.search.data, (fun c => c != '#') x = true := by
    intro x hx
    simpa using h.search_ok x hx
  have hstopSearch : stopsAt (fun c => c != '#') u.hash.data := by
    intro c hc
    rcases h.hash_head with hhe | hhh
    · rw [hhe] at hc
      simp at hc
    · rw [hc] at hhh
      simp at hhh
      subst hhh
      decide
  have htakeSearch :
      (u.search.data ++ u.hash.data).takeWhile (fun c => c != '#') = u.search.data :=
    takeWhile_append_stop _ _ _ hsearchAll hstopSearch
  have hdropSearch :
      (u.search.data ++ u.hash.data).dropWhile (fun c => c != '#') = u.hash.data :=
    dropWhile_append_stop _ _ _ hsearchAll hstopSearch
  have hpne : u.pathname.data.isEmpty = false := by
    rw [hpd]
    rfl
  simp only [parseAfterScheme, hsne, htakeHost, hdropHost, htakePath, hdropPath,
    htakeSearch, hdropSearch, hhne, hpne, Bool.false_eq_true, if_false, strMk_data]

theorem parseUrl_urlToString (u : UrlModel) (h : UrlWf u) :
    parseUrl (urlToString u) = some u := by
  have hschemeAll : ∀ x ∈ u.scheme.data, (fun c => c != ':') x = true := by
    intro x hx
    simpa using h.scheme_ok x hx
  have hstop :
      stopsAt (fun c => c != ':')
        (':' :: '/' :: '/' ::
          (u.host.data ++ (u.pathname.data ++ (u.search.data ++ u.hash.data)))) := by
    intro c hc
    simp at hc
    subst hc
    decide
  have hdrop : (urlToString u).data.dropWhile (fun c => c != ':')
      = ':' :: '/' :: '/' ::
        (u.host.data ++ (u.pathname.data ++ (u.search.data ++ u.hash.data))) := by
    rw [urlToString_data]
    exact dropWhile_append_stop _ _ _ hschemeAll hstop
  have htake : (urlToString u).data.takeWhile (fun c => c != ':') = u.scheme.data := by
    rw [urlToString_data]
    exact takeWhile_append_stop _ _ _ hschemeAll hstop
  unfold parseUrl
  rw [hdrop]
  show parseAfterScheme ((urlToString u).data.takeWhile (fun c => c != ':'))
    (u.host.data ++ (u.pathname.data ++ (u.search.data ++ u.hash.data))) = some u
  rw [htake]
  exact parseAfterScheme_eq u h

theorem parseAfterScheme_wf (scheme rest : List Char) (u : UrlModel)
    (hcolon : ∀ c ∈ scheme, c ≠ ':')
    (h : parseAfterScheme scheme rest = some u) : UrlWf u := by
  simp only [parseAfterScheme] at h
  by_cases hs : scheme.isEmpty
  · rw [if_pos hs] at h
    simp at h
  · rw [if_neg hs] at h
    by_cases hh : (rest.takeWhile (fun c => !urlStopChar c)).isEmpty
    · rw [if_pos hh] at h
      simp at h
    · rw [if_neg hh] at h
      have hu := (Option.some.injEq _ _).mp h
      subst hu
      have hsne : scheme ≠ [] := by
        intro he
        rw [he] at hs
        exact hs rfl
      have hhne : rest.takeWhile (fun c => !urlStopChar c) ≠ [] := by
        intro he
        rw [he] at hh
        exact hh rfl
      refine ⟨?_, ?_, ?_, ?_, ?_, ?_, ?_, ?_, ?_⟩
      all_goals dsimp only
      · exact hsne
      · intro c hc
        exact hcolon c hc
      · exact hhne
      · intro c hc
        have := mem_takeWhile_true _ _ _ hc
        simpa using this
      · by_cases hp : ((rest.dropWhile (fun c => !urlStopChar c)).takeWhile
            (fun c => !queryStopChar c)).isEmpty
        · rw [if_pos hp]
          rfl
        · rw [if_neg hp]
          cases hpl : (rest.dropWhile (fun c => !urlStopChar c)).takeWhile
              (fun c => !queryStopChar c) with
          | nil =>
            rw [hpl] at hp
            exact absurd rfl hp
          | cons a t =>
            have hht : ((rest.dropWhile (fun c => !urlStopChar c)).takeWhile
                (fun c => !queryStopChar c)).head? = some a := by
              rw [hpl]
              rfl
            have h1 := head?_takeWhile _ _ _ hht
            have h2 := head?_dropWhile_not _ _ _ h1.1
            have hstop : urlStopChar a = true := by
              simpa using h2
            have hq : queryStopChar a = false := by
              simpa using h1.2
            have : a = '/' := urlStop_not_query_slash a hstop hq
            subst this
            rfl
      · intro c hc
        by_cases hp : ((rest.dropWhile (fun c => !urlStopChar c)).takeWhile
            (fun c => !queryStopChar c)).isEmpty
        · rw [if_pos hp] at hc
          have hslash : ("/" : String).data = [ '/' ] := rfl
          rw [hslash] at hc
          have : c = '/' := by
            cases hc with
            | head => rfl
            | tail _ hmem => cases hmem
          subst this
          decide
        · rw [if_neg hp] at hc
          have := mem_takeWhile_true _ _ _ hc
          simpa using this
      · cases hsl : ((rest.dropWhile (fun c => !urlStopChar c)).dropWhile
            (fun c => !queryStopChar c)).takeWhile (fun c => c != '#') with
        | nil =>
          left
          rfl
        | cons a t =>
          right
          have hht : (((rest.dropWhile (fun c => !urlStopChar c)).dropWhile
              (fun c => !queryStopChar c)).takeWhile (fun c => c != '#')).head?
              = some a := by
            rw [hsl]
            rfl
          have h1 := head?_takeWhile _ _ _ hht
          have h2 := head?_dropWhile_not _ _ _ h1.1
          have hq : queryStopChar a = true := by
            simpa using h2
          have hneq : a ≠ '#' := by
            simpa using h1.2
          have : a = '?' := queryStop_not_hash_question a hq hneq
          subst this
          rfl
      · intro c hc
        have := mem_takeWhile_true _ _ _ hc
        simpa using this
      · cases hhl : ((rest.dropWhile (fun c => !urlStopChar c)).dropWhile
            (fun c => !queryStopChar c)).dropWhile (fun c => c != '#') with
        | nil =>
          left
          rfl
        | cons a t =>
          right
          have hht : (((rest.dropWhile (fun c => !urlStopChar c)).dropWhile
              (fun c => !queryStopChar c)).dropWhile (fun c => c != '#')).head?
              = some a := by
            rw [hhl]
            rfl
          have h2 := head?_dropWhile_not _ _ _ hht
          have : a = '#' := by
            simpa using h2
          subst this
          rfl

theorem parseUrl_wf (s : String) (u : UrlModel) (h : parseUrl s = some u) : UrlWf u := by
  unfold parseUrl at h
  split at h
  · refine parseAfterScheme_wf _ _ u ?_ h
    intro c hc
    have := mem_takeWhile_true _ _ _ hc
    simpa using this
  · simp at h

theorem wf_path_cons (u : UrlModel) (h : UrlWf u) : ∃ t, u.pathname.data = '/' :: t := by
  have hph := h.path_head
  cases hpd : u.pathname.data with
  | nil =>
    rw [hpd] at hph
    simp at hph
  | cons c t =>
    rw [hpd] at hph
    simp at hph
    subst hph
    exact ⟨t, rfl⟩

theorem stripUrl_eq_pos (u : UrlModel)
    (hc : u.pathname ≠ "/" ∧ pathEndsSlash u.pathname = true) :
    stripUrl u = { u with pathname := String.mk u.pathname.data.dropLast, hash := "" } := by
  unfold stripUrl
  dsimp only
  rw [if_pos hc]

theorem stripUrl_eq_neg (u : UrlModel)
    (hc : ¬(u.pathname ≠ "/" ∧ pathEndsSlash u.pathname = true)) :
    stripUrl u = { u with hash := "" } := by
  unfold stripUrl
  dsimp only
  rw [if_neg hc]

theorem stripUrl_wf (u : UrlModel) (h : UrlWf u) : UrlWf (stripUrl u) := by
  obtain ⟨pt, hpd⟩ := wf_path_cons u h
  by_cases hc : u.pathname ≠ "/" ∧ pathEndsSlash u.pathname = true
  · rw [stripUrl_eq_pos u hc]
    refine ⟨h.scheme_ne, h.scheme_ok, h.host_ne, h.host_ok, ?_, ?_, h.search_head,
      h.search_ok, Or.inl rfl⟩
    · show (u.pathname.data.dropLast).head? = some '/'
      rw [hpd]
      cases pt with
      | nil =>
        exfalso
        apply hc.1
        have : u.pathname = String.mk u.pathname.data := (strMk_data u.pathname).symm
        rw [this, hpd]
      | cons q qt =>
        rfl
    · intro c hcmem
      exact h.path_ok c ((List.dropLast_sublist u.pathname.data).subset hcmem)
  · rw [stripUrl_eq_neg u hc]
    exact ⟨h.scheme_ne, h.scheme_ok, h.host_ne, h.host_ok, h.path_head, h.path_ok,
      h.search_head, h.search_ok, Or.inl rfl⟩

theorem stripUrl_idem (u : UrlModel) (hd : ¬ pathEndsDoubleSlash u.pathname) :
    stripUrl (stripUrl u) = stripUrl u := by
  by_cases hc : u.pathname ≠ "/" ∧ pathEndsSlash u.pathname = true
  · rw [stripUrl_eq_pos u hc]
    have hns : pathEndsSlash (String.mk u.pathname.data.dropLast) = false := by
      unfold pathEndsSlash
      have h1 : u.pathname.data.getLast? = some '/' := by
        have := hc.2
        unfold pathEndsSlash at this
        simpa using this
      have h2 : u.pathname.data.dropLast.getLast? ≠ some '/' := by
        intro he
        exact hd ⟨h1, he⟩
      simpa using h2
    have hcond2 : ¬((String.mk u.pathname.data.dropLast : String) ≠ "/" ∧
        pathEndsSlash (String.mk u.pathname.data.dropLast) = true) := by
      intro hcon
      rw [hns] at hcon
      exact Bool.noConfusion hcon.2
    rw [stripUrl_eq_neg _ (by dsimp only; exact hcond2)]
  · rw [stripUrl_eq_neg u hc]
    rw [stripUrl_eq_neg _ (by dsimp only; exact hc)]

theorem stripUrl_hash_irrel (u : UrlModel) (hsh : String) :
    stripUrl { u with hash := hsh } = stripUrl u := by
  by_cases hc : u.pathname ≠ "/" ∧ pathEndsSlash u.pathname = true
  · rw [stripUrl_eq_pos _ (by dsimp only; exact hc), stripUrl_eq_pos u hc]
  · rw [stripUrl_eq_neg _ (by dsimp only; exact hc), stripUrl_eq_neg u hc]

theorem stripUrl_slash_irrel (u : UrlModel) (hwf : UrlWf u)
    (hp : u.pathname = "/" ∨ pathEndsSlash u.pathname = false) :
    stripUrl { u with pathname := String.mk (u.pathname.data ++ [ '/' ]) } = stripUrl u := by
  obtain ⟨pt, hpd⟩ := wf_path_cons u hwf
  have hplusEnds : pathEndsSlash (String.mk (u.pathname.data ++ [ '/' ])) = true := by
    unfold pathEndsSlash
    simp
  have hplusNe : (String.mk (u.pathname.data ++ [ '/' ]) : String) ≠ "/" := by
    intro he
    have hlen : (u.pathname.data ++ [ '/' ]).length = 1 := by
      have := congrArg (fun s => s.data.length) he
      simpa using this
    rw [hpd] at hlen
    simp at hlen
  have hkey : String.mk ((u.pathname.data ++ [ '/' ]).dropLast) = u.pathname := by
    rw [List.dropLast_concat]
  rw [stripUrl_eq_pos _ (by dsimp only; exact ⟨hplusNe, hplusEnds⟩)]
  dsimp only
  rw [hkey]
  rcases hp with hp | hp
  · rw [stripUrl_eq_neg u (fun hcon => hcon.1 hp)]
  · rw [stripUrl_eq_neg u (fun hcon => by
      have hx := hcon.2
      rw [hp] at hx
      exact Bool.noConfusion hx)]

theorem normalizeUrl_eq_of_parse (s : String) (u : UrlModel) (h : parseUrl s = some u) :
    normalizeUrl s = some (urlToString (stripUrl u)) := by
  simp [normalizeUrl, h]

theorem normalizeUrl_roundtrip (u : UrlModel) (h : UrlWf u) :
    normalizeUrl (urlToString u) = some (urlToString (stripUrl u)) := by
  simp [normalizeUrl, parseUrl_urlToString u h]

/-- C5 counterexample: `normalizeUrl` strips only one trailing slash per
application, so on `"https://x.com/a//"` a second application changes
the result again and idempotence fails. -/
theorem normalizeUrl_not_idempotent :
    normalizeUrl "https://x.com/a//" = some "https://x.com/a/"
    ∧ normalizeUrl "https://x.com/a/" = some "https://x.com/a"
    ∧ (normalizeUrl "https://x.com/a//").bind normalizeUrl
      ≠ normalizeUrl "https://x.com/a//" := by
  refine ⟨by decide, by decide, by decide⟩

/-- C5 (amended): URL normalization is idempotent for every input whose
parsed pathname does not end in two consecutive slashes (each
application strips at most one trailing slash); two URLs that differ
only by fragment or by one trailing slash normalize to the same string;
and in particular `normalize("https://x.com/a/") ==
normalize("https://x.com/a")`. -/
theorem normalizeUrl_spec :
    (∀ s u, parseUrl s = some u → ¬ pathEndsDoubleSlash u.pathname →
      (normalizeUrl s).bind normalizeUrl = normalizeUrl s)
    ∧ (∀ s u frag, parseUrl s = some u → (frag = "" ∨ frag.data.head? = some '#') →
      normalizeUrl (urlToString { u with hash := frag }) = normalizeUrl s)
    ∧ (∀ s u, parseUrl s = some u →
      (u.pathname = "/" ∨ pathEndsSlash u.pathname = false) →
      normalizeUrl (urlToString
        { u with pathname := String.mk (u.pathname.data ++ [ '/' ]) }) = normalizeUrl s)
    ∧ normalizeUrl "https://x.com/a/" = normalizeUrl "https://x.com/a" := by
  refine ⟨?_, ?_, ?_, by decide⟩
  · intro s u hp hd
    rw [normalizeUrl_eq_of_parse s u hp]
    show normalizeUrl (urlToString (stripUrl u)) = some (urlToString (stripUrl u))
    rw [normalizeUrl_roundtrip (stripUrl u) (stripUrl_wf u (parseUrl_wf s u hp)),
      stripUrl_idem u hd]
  · intro s u frag hp hfrag
    have hwf := parseUrl_wf s u hp
    have hwf2 : UrlWf { u with hash := frag } := by
      refine ⟨hwf.scheme_ne, hwf.scheme_ok, hwf.host_ne, hwf.host_ok, hwf.path_head,
        hwf.path_ok, hwf.search_head, hwf.search_ok, ?_⟩
      rcases hfrag with hfe | hfh
      · subst hfe
        exact Or.inl rfl
      · exact Or.inr hfh
    rw [normalizeUrl_roundtrip _ hwf2, normalizeUrl_eq_of_parse s u hp,
      stripUrl_hash_irrel u frag]
  · intro s u hp hslash
    have hwf := parseUrl_wf s u hp
    obtain ⟨pt, hpd⟩ := wf_path_cons u hwf
    have hwf2 : UrlWf { u with pathname := String.mk (u.pathname.data ++ [ '/' ]) } := by
      refine ⟨hwf.scheme_ne, hwf.scheme_ok, hwf.host_ne, hwf.host_ok, ?_, ?_,
        hwf.search_head, hwf.search_ok, hwf.hash_head⟩
      · show (u.pathname.data ++ [ '/' ]).head? = some '/'
        rw [hpd]
        rfl
      · intro c hc
        show queryStopChar c = false
        rcases List.mem_append.mp hc with hc | hc
        · exact hwf.path_ok c hc
        · have : c = '/' := by
            cases hc with
            | head => rfl
            | tail _ hmem => cases hmem
          subst this
          decide
    rw [normalizeUrl_roundtrip _ hwf2, normalizeUrl_eq_of_parse s u hp,
      stripUrl_slash_irrel u hwf hslash]

/-- Witness for C5 at a concrete URL with one trailing slash. -/
theorem normalizeUrl_spec_witness :
    (normalizeUrl "https://x.com/b/").bind normalizeUrl = normalizeUrl "https://x.com/b/" :=
  normalizeUrl_spec.1 "https://x.com/b/"
    ⟨"https", "x.com", "/b/", "", ""⟩ (by decide) (by decide)

/-! Dataset builder (`buildFaqDataset`, src/unnamed/part_000 lines
453-514). -/

/-- Modelled run configuration: the `buildConfig` fields that the crawl
loop and the dataset builder read.  Timeouts, the user agent and the
output path are consumed only by the unmodelled I/O layers. -/
structure CrawlConfig where
  url : String
  origin : String
  siteName : String
  maxPages : Nat
  maxFaqs : Nat
  concurrency : Nat
  minSectionChars : Nat
  seedUrls : List String
  renderWithBrowser : Bool
deriving DecidableEq

/-- Model of `String.prototype.toLowerCase` for the ASCII range
(`Char.toLower` maps exactly the ASCII uppercase letters, which is all
the tag names, questions and headings below contain). -/
def jsToLower (s : String) : String :=
  String.mk (s.data.map Char.toLower)

/-- Lowercase letters and digits, the characters `slugify` keeps. -/
def isSlugChar (c : Char) : Bool :=
  ('a' ≤ c && c ≤ 'z') || ('0' ≤ c && c ≤ '9')

/-- Model of the `replace(/[^a-z0-9]+/g, '-')` step of `slugify`: every
maximal run of non-slug characters becomes a single dash. -/
def slugCollapse : List Char → Bool → List Char
  | [], _ => []
  | c :: rest, prevBad =>
    if isSlugChar c then c :: slugCollapse rest false
    else if prevBad then slugCollapse rest true
    else '-' :: slugCollapse rest true

/-- Model of the `replace(/^-+|-+$/g, '')` step of `slugify`. -/
def stripDashes (cs : List Char) : List Char :=
  ((cs.dropWhile (fun c => c == '-')).reverse.dropWhile (fun c => c == '-')).reverse

/-- Model of `slugify` (src/unnamed/part_000 lines 563-568). -/
def slugify (text : String) : String :=
  String.mk (stripDashes (slugCollapse (jsToLower (cleanText text)).data false))

/-- Model of the heading clean-up in `buildFaqDataset` (line 469):
`section.heading.replace(/[:?]+$/g, '').trim()` — drop the trailing run
of ':' and '?' characters, then trim. -/
def stripHeading (s : String) : String :=
  jsTrim (String.mk ((s.data.reverse.dropWhile (fun c => c == ':' || c == '?')).reverse))

/-- FAQ entry (`{question, answer, sourceUrl, tags}`). -/
structure FaqEntry where
  question : String
  answer : String
  sourceUrl : String
  tags : List String
deriving DecidableEq

/-- FAQ entries a single page contributes, in emission order: the
page-overview entry when the page has a (truthy) summary, followed by
one entry per section (src/unnamed/part_000 lines 457-477). -/
def pageFaqCandidates (cfg : CrawlConfig) (page : Page) : List FaqEntry :=
  (if page.summary ≠ "" then
    [{ question := "What does the “" ++ page.title ++ "” page cover on "
         ++ cfg.siteName ++ "?"
       answer := page.summary
       sourceUrl := page.url
       tags := ["page-overview"] }]
  else []) ++
  page.sections.map (fun s =>
    { question := "What does “" ++ stripHeading s.heading ++ "” highlight on "
        ++ cfg.siteName ++ "?"
      answer := s.content
      sourceUrl := page.url
      tags := ["section", slugify (stripHeading s.heading)] })

/-- All FAQ candidates in page emission order. -/
def faqCandidates (cfg : CrawlConfig) (pages : List Page) : List FaqEntry :=
  (pages.map (pageFaqCandidates cfg)).flatten

/-- Truncation `pushFaq` applies when an entry is stored (line 511). -/
def storeFaq (e : FaqEntry) : FaqEntry :=
  { e with answer := truncate e.answer 1200 }

/-- Model of the `pushFaq`/`seen` deduplication (src/unnamed/part_000
lines 504-513): the first entry with a given lowercased question wins
and every stored answer is truncated to 1200 characters. -/
def dedupFaqs : List FaqEntry → List String → List FaqEntry
  | [], _ => []
  | e :: rest, seen =>
    if (jsToLower e.question) ∈ seen then dedupFaqs rest seen
    else storeFaq e :: dedupFaqs rest ((jsToLower e.question) :: seen)

/-- Model of `countWords` (src/unnamed/part_000 lines 558-561): after
`cleanText` the only whitespace left is single spaces, so the `split`
plus `filter(Boolean)` count the non-space runs. -/
def countWordsAux : List Char → Bool → Nat
  | [], _ => 0
  | c :: rest, inWord =>
    if c = ' ' then countWordsAux rest false
    else (if inWord then 0 else 1) + countWordsAux rest true

def countWords (text : String) : Nat :=
  countWordsAux (cleanText text).data false

/-- Integer-valued metrics of `buildMetrics` (src/unnamed/part_000
lines 516-537).  The float-valued fields (`avgAnswerWords`,
`estimatedAnswerTokens`, `coverageScore`) are IEEE-double computations
that no claim touches; they are not modelled. -/
structure DatasetMetrics where
  pagesCrawled : Nat
  sectionsExtracted : Nat
  totalFaqs : Nat
deriving DecidableEq

def buildMetrics (faqs : List FaqEntry) (pages : List Page) : DatasetMetrics :=
  { pagesCrawled := pages.length
    sectionsExtracted := (pages.map (fun p => p.sections.length)).sum
    totalFaqs := faqs.length }

/-- Entry of the dataset's `crawlReport` (lines 496-501). -/
structure CrawlReportEntry where
  url : String
  title : String
  sections : Nat
  hasSummary : Bool
deriving DecidableEq

/-- Dataset produced by `buildFaqDataset` (src/unnamed/part_000 lines
453-514).  `generatedAt` is a wall-clock timestamp and is not
modelled. -/
structure Dataset where
  sourceUrl : String
  sourceSiteName : String
  cfgMaxPages : Nat
  cfgMaxFaqs : Nat
  cfgMinSectionChars : Nat
  metrics : DatasetMetrics
  faqs : List FaqEntry
  crawlReport : List CrawlReportEntry
deriving DecidableEq

/-- Model of `buildFaqDataset` (src/unnamed/part_000 lines 453-514):
emit the per-page candidates in page order, deduplicate by lowercased
question with the first write winning and answers truncated to 1200
characters, then cap the list at `maxFaqs`. -/
def buildFaqDataset (pages : List Page) (cfg : CrawlConfig) : Dataset :=
  let cappedFaqs := (dedupFaqs (faqCandidates cfg pages) []).take cfg.maxFaqs
  { sourceUrl := cfg.url
    sourceSiteName := cfg.siteName
    cfgMaxPages := cfg.maxPages
    cfgMaxFaqs := cfg.maxFaqs
    cfgMinSectionChars := cfg.minSectionChars
    metrics := buildMetrics cappedFaqs pages
    faqs := cappedFaqs
    crawlReport := pages.map (fun p =>
      { url := p.url
        title := p.title
        sections := p.sections.length
        hasSummary := p.summary != "" }) }

theorem storeFaq_question (e : FaqEntry) : (storeFaq e).question = e.question := rfl

theorem dedupFaqs_mem (es : List FaqEntry) (seen : List String) (f : FaqEntry)
    (h : f ∈ dedupFaqs es seen) :
    (jsToLower f.question) ∉ seen
    ∧ ∃ c, es.find? (fun d => (jsToLower d.question) == (jsToLower f.question)) = some c
        ∧ f = storeFaq c := by
  induction es generalizing seen with
  | nil => simp [dedupFaqs] at h
  | cons e rest ih =>
    simp only [dedupFaqs] at h
    by_cases hk : (jsToLower e.question) ∈ seen
    · rw [if_pos hk] at h
      obtain ⟨hns, c, hfind, hfc⟩ := ih seen h
      have hne : ¬((fun d => (jsToLower d.question) == (jsToLower f.question)) e = true) := by
        intro hbeq
        exact hns (beq_iff_eq.mp hbeq ▸ hk)
      refine ⟨hns, c, ?_, hfc⟩
      rw [@List.find?_cons_of_neg FaqEntry
        (fun d => (jsToLower d.question) == (jsToLower f.question)) e rest hne]
      exact hfind
    · rw [if_neg hk] at h
      rcases List.mem_cons.mp h with hfe | hmem
      · subst hfe
        refine ⟨hk, e, ?_, rfl⟩
        rw [List.find?_cons_of_pos]
        simp [storeFaq_question]
      · obtain ⟨hns, c, hfind, hfc⟩ := ih ((jsToLower e.question) :: seen) hmem
        have hneq : (jsToLower f.question) ≠ (jsToLower e.question) := by
          intro he
          exact hns (by rw [he]; exact List.mem_cons_self _ _)
        have hne : ¬((fun d => (jsToLower d.question) == (jsToLower f.question)) e = true) := by
          intro hbeq
          exact hneq (beq_iff_eq.mp hbeq).symm
        refine ⟨fun hmem2 => hns (List.mem_cons_of_mem _ hmem2), c, ?_, hfc⟩
        rw [@List.find?_cons_of_neg FaqEntry
          (fun d => (jsToLower d.question) == (jsToLower f.question)) e rest hne]
        exact hfind

theorem dedupFaqs_keys_nodup (es : List FaqEntry) (seen : List String) :
    ((dedupFaqs es seen).map (fun f => (jsToLower f.question))).Nodup := by
  induction es generalizing seen with
  | nil => simp [dedupFaqs]
  | cons e rest ih =>
    simp only [dedupFaqs]
    by_cases hk : (jsToLower e.question) ∈ seen
    · rw [if_pos hk]
      exact ih seen
    · rw [if_neg hk]
      simp only [List.map_cons, List.nodup_cons]
      constructor
      · intro hmem
        obtain ⟨g, hg, hge⟩ := List.mem_map.mp hmem
        apply (dedupFaqs_mem rest _ g hg).1
        rw [hge, storeFaq_question]
        exact List.mem_cons_self _ _
      · exact ih _

/-- C4: for every list of pages and every config, the built dataset's
FAQ list has length at most `maxFaqs`, its lowercased question strings
are pairwise distinct, and each kept entry is the (truncated) first
candidate emitted with its lowercased question — first write wins. -/
theorem buildFaqDataset_dedup_spec (pages : List Page) (cfg : CrawlConfig) :
    (buildFaqDataset pages cfg).faqs.length ≤ cfg.maxFaqs
    ∧ ((buildFaqDataset pages cfg).faqs.map (fun f => (jsToLower f.question))).Nodup
    ∧ ∀ f ∈ (buildFaqDataset pages cfg).faqs, ∃ c,
        (faqCandidates cfg pages).find?
          (fun d => (jsToLower d.question) == (jsToLower f.question)) = some c
        ∧ f = storeFaq c := by
  refine ⟨?_, ?_, ?_⟩
  · show ((dedupFaqs (faqCandidates cfg pages) []).take cfg.maxFaqs).length ≤ cfg.maxFaqs
    exact List.length_take_le _ _
  · show (((dedupFaqs (faqCandidates cfg pages) []).take cfg.maxFaqs).map
      (fun f => (jsToLower f.question))).Nodup
    exact ((List.take_sublist _ _).map _).nodup (dedupFaqs_keys_nodup _ _)
  · intro f hf
    have hf' : f ∈ dedupFaqs (faqCandidates cfg pages) [] :=
      (List.take_sublist _ _).subset hf
    exact (dedupFaqs_mem _ _ f hf').2

/-- Page used in the dataset-builder witnesses. -/
def pageW : Page where
  url := "https://x.com/about"
  title := "About"
  description := ""
  summary := "Short summary."
  sections := [⟨"Our Mission:", "Mission content here.", "Mission content here."⟩]
  links := []
  wordCount := 2

/-- Config used in the dataset-builder witnesses. -/
def cfgW : CrawlConfig where
  url := "https://x.com/"
  origin := "https://x.com"
  siteName := "Example"
  maxPages := 20
  maxFaqs := 80
  concurrency := 2
  minSectionChars := 180
  seedUrls := ["https://x.com/"]
  renderWithBrowser := true

/-- The page-overview FAQ entry `pageW` produces. -/
def faqW : FaqEntry where
  question := "What does the “About” page cover on Example?"
  answer := "Short summary."
  sourceUrl := "https://x.com/about"
  tags := ["page-overview"]

/-- Witness for C4 at a concrete page list and entry. -/
theorem buildFaqDataset_dedup_spec_witness :
    (buildFaqDataset [pageW] cfgW).faqs.length ≤ cfgW.maxFaqs
    ∧ ((buildFaqDataset [pageW] cfgW).faqs.map (fun f => (jsToLower f.question))).Nodup
    ∧ ∃ c, (faqCandidates cfgW [pageW]).find?
          (fun d => (jsToLower d.question) == (jsToLower faqW.question)) = some c
        ∧ faqW = storeFaq c :=
  ⟨(buildFaqDataset_dedup_spec [pageW] cfgW).1,
   (buildFaqDataset_dedup_spec [pageW] cfgW).2.1,
   (buildFaqDataset_dedup_spec [pageW] cfgW).2.2 faqW (by decide)⟩

/-- Summary of 1250 'a' characters, longer than the 1200 bound. -/
def bigAnswer : String := String.mk (List.replicate 1250 'a')

/-- Page whose summary overflows the truncation bound. -/
def pageBig : Page where
  url := "https://x.com/big"
  title := "Big"
  description := ""
  summary := bigAnswer
  sections := []
  links := []
  wordCount := 3

theorem lastIdxOf_of_not_mem (c : Char) (cs : List Char) (h : c ∉ cs) :
    lastIdxOf c cs = -1 := by
  induction cs with
  | nil => rfl
  | cons a rest ih =>
    have hne : ¬(a = c) := fun he => h (he ▸ List.mem_cons_self _ _)
    have hr : lastIdxOf c rest = -1 := ih (fun hm => h (List.mem_cons_of_mem _ hm))
    simp only [lastIdxOf, hr]
    norm_num
    exact hne

theorem trimChars_no_ws (cs : List Char) (h : ∀ c ∈ cs, isJsSpace c = false) :
    trimChars cs = cs := by
  unfold trimChars
  have h1 : cs.dropWhile isJsSpace = cs := by
    apply dropWhile_stopsAt
    intro c hc
    cases cs with
    | nil => simp at hc
    | cons a t =>
      simp at hc
      subst hc
      exact h a (List.mem_cons_self _ _)
  rw [h1]
  have h2 : cs.reverse.dropWhile isJsSpace = cs.reverse := by
    apply dropWhile_stopsAt
    intro c hc
    cases hr : cs.reverse with
    | nil =>
      rw [hr] at hc
      simp at hc
    | cons a t =>
      rw [hr] at hc
      simp at hc
      subst hc
      apply h
      have : a ∈ cs.reverse := by
        rw [hr]
        exact List.mem_cons_self _ _
      simpa using this
  rw [h2, List.reverse_reverse]

/-- Length of the stored answer produced from the 1250-character
summary: 1200 sliced characters plus the two-character marker. -/
theorem truncate_bigAnswer_length : (truncate bigAnswer 1200).length = 1202 := by
  have hlen : bigAnswer.length = 1250 := by
    show (String.mk (List.replicate 1250 'a')).length = 1250
    rw [strLength_mk, List.length_replicate]
  have htake : (strTake bigAnswer 1200).data = List.replicate 1200 'a' := by
    show (List.replicate 1250 'a').take 1200 = List.replicate 1200 'a'
    rw [List.take_replicate]
    norm_num
  have hnomem : '.' ∉ List.replicate 1200 'a' := by
    intro hm
    have := List.eq_of_mem_replicate hm
    exact absurd this (by decide)
  have hlip : lastIdxOf '.' (strTake bigAnswer 1200).data = -1 := by
    rw [htake]
    exact lastIdxOf_of_not_mem _ _ hnomem
  have htrim : jsTrim (strTake bigAnswer 1200) = strTake bigAnswer 1200 := by
    show String.mk (trimChars (strTake bigAnswer 1200).data) = strTake bigAnswer 1200
    rw [trimChars_no_ws _ ?hws, strMk_data]
    case hws =>
      intro c hc
      rw [htake] at hc
      have := List.eq_of_mem_replicate hc
      subst this
      rfl
  unfold truncate
  rw [if_neg (by rw [hlen]; omega)]
  rw [if_neg (by rw [hlip]; omega)]
  rw [length_append_str, htrim]
  have : (strTake bigAnswer 1200).length = 1200 := by
    show (strTake bigAnswer 1200).data.length = 1200
    rw [htake, List.length_replicate]
  rw [this]
  rfl

/-- Raw page-overview candidate that `pageBig` emits. -/
def entryBig : FaqEntry where
  question := "What does the “Big” page cover on Example?"
  answer := bigAnswer
  sourceUrl := "https://x.com/big"
  tags := ["page-overview"]

/-- C2 counterexample: a page whose summary has 1250 characters (no
periods) yields a stored FAQ answer of 1202 characters — `truncate`
slices to 1200 and appends the two-character `" …"` marker, exceeding
the claimed 1200-character bound. -/
theorem faq_answer_over_1200 :
    ¬ (∀ f ∈ (buildFaqDataset [pageBig] cfgW).faqs, f.answer.length ≤ 1200) := by
  intro hall
  have hfaqs : (buildFaqDataset [pageBig] cfgW).faqs = [storeFaq entryBig] := rfl
  have hm : storeFaq entryBig ∈ (buildFaqDataset [pageBig] cfgW).faqs := by
    rw [hfaqs]
    exact List.mem_singleton.mpr rfl
  have hle := hall (storeFaq entryBig) hm
  dsimp only [storeFaq, entryBig] at hle
  rw [truncate_bigAnswer_length] at hle
  omega

/-- C2 (amended): every FAQ answer in the built dataset has at most
1202 characters — the 1200 sliced characters plus the two-character
ellipsis marker `truncate` appends. -/
theorem faq_answer_le_1202 (pages : List Page) (cfg : CrawlConfig) (f : FaqEntry)
    (hf : f ∈ (buildFaqDataset pages cfg).faqs) : f.answer.length ≤ 1202 := by
  have hf' : f ∈ dedupFaqs (faqCandidates cfg pages) [] :=
    (List.take_sublist _ _).subset hf
  obtain ⟨-, c, -, hfc⟩ := dedupFaqs_mem _ _ f hf'
  rw [hfc]
  show (truncate c.answer 1200).length ≤ 1202
  exact truncate_length_le c.answer 1200

/-- Witness for C2 (amended) at a concrete dataset member. -/
theorem faq_answer_le_1202_witness : faqW.answer.length ≤ 1202 :=
  faq_answer_le_1202 [pageW] cfgW faqW (by decide)

/-! Content extractor (`extractPageContent`/`extractSections`,
src/unnamed/part_000 lines 212-313).  The cheerio document is modelled
as a flat list of sibling elements (tag name plus own text) together
with the title, meta description, main text, body text and anchor
hrefs; the heading scan walks the following siblings exactly as
`$(el).next()` does. -/

/-- DOM element as the extractor reads it: tag name and text content. -/
structure Element where
  name : String
  text : String
deriving DecidableEq

/-- Modelled cheerio document. -/
structure HtmlDoc where
  titleText : String
  metaDescription : String
  elems : List Element
  mainText : String
  bodyText : String
  hrefs : List String
deriving DecidableEq

/-- Case-insensitive test for `/^h[1-3]$/i` (line 242). -/
def isHeadingName (n : String) : Bool :=
  jsToLower n == "h1" || jsToLower n == "h2" || jsToLower n == "h3"

/-- Model of the heading scan (src/unnamed/part_000 lines 235-256):
for every h1-h3 element in document order, accumulate the cleaned text
of the following siblings up to the next heading, join with spaces, and
keep the section only when the content reaches `minChars`. -/
def headingScan (minChars : Nat) : List Element → List PageSection
  | [] => []
  | el :: rest =>
    let tailSections := headingScan minChars rest
    if isHeadingName el.name then
      let heading := cleanText el.text
      if heading = "" then tailSections
      else
        let content := String.intercalate " "
          (((rest.takeWhile (fun e => !isHeadingName e.name)).map
            (fun e => cleanText e.text)).filter (fun t => t ≠ ""))
        if content.length < minChars then tailSections
        else ⟨heading, content, truncate content 320⟩ :: tailSections
    else tailSections

/-- Model of the paragraph fallback (lines 257-267): each sufficiently
long paragraph becomes its own section titled with its 1-based index in
the full paragraph selection (short paragraphs still advance the
index, as `each` passes the selection index). -/
def paragraphSections (minChars : Nat) (ps : List Element) : List PageSection :=
  ps.enum.filterMap (fun ie =>
    if (cleanText ie.2.text).length < minChars then none
    else some ⟨"Key Insight " ++ toString (ie.1 + 1), cleanText ie.2.text,
      truncate (cleanText ie.2.text) 320⟩)

/-- Model of the whole-body fallback (lines 269-278). -/
def bodySection (minChars : Nat) (bodyText : String) : List PageSection :=
  if minChars ≤ (cleanText bodyText).length then
    [⟨"Site Overview", cleanText bodyText, truncate (cleanText bodyText) 320⟩]
  else []

/-- Model of `extractSections` (src/unnamed/part_000 lines 233-281). -/
def extractSections (doc : HtmlDoc) (minChars : Nat) : List PageSection :=
  let s1 := headingScan minChars doc.elems
  if s1.isEmpty then
    let s2 := paragraphSections minChars
      (doc.elems.filter (fun e => jsToLower e.name == "p"))
    if s2.isEmpty then bodySection minChars doc.bodyText
    else s2
  else s1

/-- Model of `buildSummary` (src/unnamed/part_000 lines 283-292). -/
def buildSummary (doc : HtmlDoc) (sections : List PageSection) : String :=
  let primary := jsTrim (String.intercalate " " (sections.map (fun s => s.content)))
  let fallback := if cleanText doc.mainText = "" then cleanText doc.bodyText
    else cleanText doc.mainText
  let text := if 250 < primary.length then primary else fallback
  if text = "" then "" else truncate text 600

/-- Resolution of an anchor href against the page URL, modelling
`new URL(raw, baseUrl)` for absolute and root-relative hrefs (other
relative forms resolve against the base path and are not modelled:
the resolver returns `none` for them). -/
def resolveHref (raw : String) (baseUrl : String) : Option UrlModel :=
  match parseUrl raw with
  | some u => some u
  | none =>
    if raw.data.head? = some '/' then
      match parseUrl baseUrl with
      | some b => parseAfterScheme b.scheme.data (b.host.data ++ raw.data)
      | none => none
    else none

/-- Insertion-order deduplication of the `links` Set (lines 295-312). -/
def dedupFirst : List String → List String → List String
  | [], _ => []
  | x :: rest, seen =>
    if x ∈ seen then dedupFirst rest seen
    else x :: dedupFirst rest (x :: seen)

/-- Model of `extractLinks` (src/unnamed/part_000 lines 294-313):
skip empty, in-page, `mailto:` and `tel:` hrefs, resolve, clear the
fragment, normalize, deduplicate keeping the first occurrence. -/
def extractLinks (doc : HtmlDoc) (baseUrl : String) : List String :=
  dedupFirst (doc.hrefs.filterMap (fun raw =>
    if raw = "" then none
    else if raw.data.head? = some '#' then none
    else if ("mailto:".data).isPrefixOf raw.data then none
    else if ("tel:".data).isPrefixOf raw.data then none
    else match resolveHref raw baseUrl with
      | some u => normalizeUrl (urlToString { u with hash := "" })
      | none => none)) []

/-- Model of `extractPageContent` (src/unnamed/part_000 lines 212-231). -/
def extractPageContent (doc : HtmlDoc) (url : String) (cfg : CrawlConfig) : Page :=
  let title := if cleanText doc.titleText = "" then url else cleanText doc.titleText
  let sections := extractSections doc cfg.minSectionChars
  let summary := buildSummary doc sections
  { url := url
    title := title
    description := cleanText doc.metaDescription
    summary := summary
    sections := sections
    links := extractLinks doc url
    wordCount := countWords (if summary = "" then doc.bodyText else summary) }

theorem headingScan_min (minChars : Nat) (els : List Element) (s : PageSection)
    (h : s ∈ headingScan minChars els) : minChars ≤ s.content.length := by
  induction els with
  | nil => simp [headingScan] at h
  | cons el rest ih =>
    simp only [headingScan] at h
    split at h
    · split at h
      · exact ih h
      · split at h
        · exact ih h
        · rcases List.mem_cons.mp h with he | hm
          · subst he
            rename_i hlen
            dsimp only
            omega
          · exact ih hm
    · exact ih h

theorem paragraphSections_min (minChars : Nat) (ps : List Element) (s : PageSection)
    (h : s ∈ paragraphSections minChars ps) : minChars ≤ s.content.length := by
  unfold paragraphSections at h
  obtain ⟨ie, _, hfa⟩ := List.mem_filterMap.mp h
  split at hfa
  · exact absurd hfa (by simp)
  · rename_i hlen
    have := (Option.some.injEq _ _).mp hfa
    subst this
    dsimp only
    omega

theorem bodySection_min (minChars : Nat) (bodyText : String) (s : PageSection)
    (h : s ∈ bodySection minChars bodyText) : minChars ≤ s.content.length := by
  unfold bodySection at h
  split at h
  · rename_i hlen
    rcases List.mem_cons.mp h with he | hm
    · subst he
      exact hlen
    · simp at hm
  · simp at h

/-- C6: every section in the Page returned by the extractor — whether
from the heading scan, the paragraph fallback or the whole-body
fallback — has content of length at least `minSectionChars`. -/
theorem extract_sections_min_length (doc : HtmlDoc) (url : String) (cfg : CrawlConfig)
    (s : PageSection) (hs : s ∈ (extractPageContent doc url cfg).sections) :
    cfg.minSectionChars ≤ s.content.length := by
  have hs' : s ∈ extractSections doc cfg.minSectionChars := hs
  simp only [extractSections] at hs'
  split at hs'
  · split at hs'
    · exact bodySection_min _ _ s hs'
    · exact paragraphSections_min _ _ s hs'
  · exact headingScan_min _ _ s hs'

/-- Document used in the extractor witness. -/
def docW : HtmlDoc where
  titleText := "Example Site"
  metaDescription := ""
  elems := [⟨"h2", "Our Mission"⟩, ⟨"p", "This is mission content text."⟩]
  mainText := ""
  bodyText := "Our Mission This is mission content text."
  hrefs := []

/-- Config with a small section minimum, for the extractor witness. -/
def cfgSmall : CrawlConfig :=
  { cfgW with minSectionChars := 10 }

/-- The section extracted from `docW`. -/
def sectionW : PageSection where
  heading := "Our Mission"
  content := "This is mission content text."
  snippet := "This is mission content text."

/-- Witness for C6 at a concrete document. -/
theorem extract_sections_min_length_witness :
    cfgSmall.minSectionChars ≤ sectionW.content.length :=
  extract_sections_min_length docW "https://x.com/" cfgSmall sectionW (by decide)

/-! Frontier manager (`crawlSite`/`processPage`, src/unnamed/part_000
lines 119-194).  The fetch / render / extract pipeline inside
`processPage` is abstracted as a total `oracle` from the normalized URL
to the produced page (`none` models every failure path: fetch error,
render error, disabled rendering, unparseable content); the claims
below depend only on the frontier bookkeeping around it. -/

/-- Model of `String.prototype.startsWith`. -/
def jsStartsWith (s pre : String) : Bool :=
  pre.data.isPrefixOf s.data

/-- Crawl state owned by the frontier manager.  `log` is bookkeeping
added by the model: it records each URL for which `processPage` went
past the visited check, i.e. for which a fetch/render attempt was
made. -/
structure CrawlState where
  queue : List String
  visited : List String
  pages : List Page
  log : List String
deriving DecidableEq

/-- The `concurrency` clamp of `buildConfig` (src/unnamed/part_000
lines 91-94). -/
def effectiveConcurrency (cfg : CrawlConfig) : Nat :=
  min (max cfg.concurrency 1) 5

/-- Model of `processPage` (src/unnamed/part_000 lines 162-194) at the
granularity the frontier claims need: normalize, bail out when the URL
is invalid or already visited, otherwise mark it visited, record the
attempt, and ask the oracle for the page.  The links the caller reads
are the page's `links` field, as in the source. -/
def processPage (oracle : String → Option Page) (url : String) (visited : List String) :
    Option Page × List String × List String :=
  match normalizeUrl url with
  | none => (none, visited, [])
  | some nu =>
    if nu ∈ visited then (none, visited, [])
    else (oracle nu, nu :: visited, [nu])

/-- The batch's `processPage` calls.  The synchronous prefix of each
call (normalize, visited check, visited insert) runs in submission
order before any network suspension of the event loop, so threading
`visited` through the batch in order is faithful. -/
def processBatch (oracle : String → Option Page) :
    List String → List String → List (Option Page) × List String × List String
  | [], visited => ([], visited, [])
  | u :: us, visited =>
    let pp := processPage oracle u visited
    let pb := processBatch oracle us pp.2.1
    (pp.1 :: pb.1, pb.2.1, pp.2.2 ++ pb.2.2)

/-- Model of the per-page link walk (src/unnamed/part_000 lines
139-151): a link is skipped when the known work (pages + queue) has
reached `maxPages` or it is already visited or queued; otherwise it is
enqueued exactly when it starts with the configured origin string. -/
def pushLinks (cfg : CrawlConfig) (visited : List String) (ps : List Page) :
    List String → List String → List String
  | [], q => q
  | link :: ls, q =>
    if cfg.maxPages ≤ ps.length + q.length ∨ link ∈ visited ∨ link ∈ q then
      pushLinks cfg visited ps ls q
    else if jsStartsWith link cfg.origin then
      pushLinks cfg visited ps ls (q ++ [link])
    else
      pushLinks cfg visited ps ls q

/-- Model of the `results.filter(Boolean).forEach` loop (lines
134-152): append each produced page, then push its links against the
live page and queue counts. -/
def integrate (cfg : CrawlConfig) (visited : List String) :
    List (Option Page) → List Page → List String → List Page × List String
  | [], ps, q => (ps, q)
  | none :: rs, ps, q => integrate cfg visited rs ps q
  | some p :: rs, ps, q =>
    integrate cfg visited rs (ps ++ [p]) (pushLinks cfg visited (ps ++ [p]) p.links q)

/-- One iteration of the `crawlSite` while-loop (src/unnamed/part_000
lines 124-157): splice a batch off the queue, process it, integrate
the results.  The inter-batch pause has no effect on the state. -/
def crawlStep (cfg : CrawlConfig) (oracle : String → Option Page) (s : CrawlState) :
    CrawlState :=
  let pb := processBatch oracle (s.queue.take (effectiveConcurrency cfg)) s.visited
  let iq := integrate cfg pb.2.1 pb.1 s.pages (s.queue.drop (effectiveConcurrency cfg))
  { queue := iq.2, visited := pb.2.1, pages := iq.1, log := s.log ++ pb.2.2 }

/-- Negation of the loop guard of `crawlSite` (line 124). -/
def crawlDone (cfg : CrawlConfig) (s : CrawlState) : Bool :=
  s.queue.isEmpty || decide (cfg.maxPages ≤ s.pages.length)

theorem pushLinks_append (cfg : CrawlConfig) (visited : List String) (ps : List Page) :
    ∀ (ls q : List String), ∃ ex, pushLinks cfg visited ps ls q = q ++ ex := by
  intro ls
  induction ls with
  | nil =>
    intro q
    exact ⟨[], by simp [pushLinks]⟩
  | cons l ls ih =>
    intro q
    simp only [pushLinks]
    split
    · exact ih q
    · split
      · obtain ⟨ex, hex⟩ := ih (q ++ [l])
        exact ⟨l :: ex, by rw [hex, List.append_assoc]; rfl⟩
      · exact ih q

theorem integrate_queue_append (cfg : CrawlConfig) (visited : List String) :
    ∀ (rs : List (Option Page)) (ps : List Page) (q : List String),
      ∃ ex, (integrate cfg visited rs ps q).2 = q ++ ex := by
  intro rs
  induction rs with
  | nil =>
    intro ps q
    exact ⟨[], by simp [integrate]⟩
  | cons r rs ih =>
    intro ps q
    cases r with
    | none => exact ih ps q
    | some p =>
      obtain ⟨e1, he1⟩ := pushLinks_append cfg visited (ps ++ [p]) p.links q
      obtain ⟨e2, he2⟩ := ih (ps ++ [p]) (pushLinks cfg visited (ps ++ [p]) p.links q)
      refine ⟨e1 ++ e2, ?_⟩
      show (integrate cfg visited rs (ps ++ [p])
        (pushLinks cfg visited (ps ++ [p]) p.links q)).2 = q ++ (e1 ++ e2)
      rw [he2, he1, List.append_assoc]

theorem integrate_pages_le (cfg : CrawlConfig) (visited : List String) :
    ∀ (rs : List (Option Page)) (ps : List Page) (q : List String),
      ps.length ≤ (integrate cfg visited rs ps q).1.length := by
  intro rs
  induction rs with
  | nil =>
    intro ps q
    exact le_refl _
  | cons r rs ih =>
    intro ps q
    cases r with
    | none => exact ih ps q
    | some p =>
      have := ih (ps ++ [p]) (pushLinks cfg visited (ps ++ [p]) p.links q)
      have hlen : ps.length ≤ (ps ++ [p]).length := by simp
      exact le_trans hlen this

theorem integrate_queue_of_pages_eq (cfg : CrawlConfig) (visited : List String) :
    ∀ (rs : List (Option Page)) (ps : List Page) (q : List String),
      (integrate cfg visited rs ps q).1.length = ps.length →
      (integrate cfg visited rs ps q).2 = q := by
  intro rs
  induction rs with
  | nil =>
    intro ps q _
    rfl
  | cons r rs ih =>
    intro ps q h
    cases r with
    | none => exact ih ps q h
    | some p =>
      exfalso
      have h1 := integrate_pages_le cfg visited rs (ps ++ [p])
        (pushLinks cfg visited (ps ++ [p]) p.links q)
      have h2 : (ps ++ [p]).length = ps.length + 1 := by simp
      have h3 : (integrate cfg visited (some p :: rs) ps q).1.length
          = (integrate cfg visited rs (ps ++ [p])
              (pushLinks cfg visited (ps ++ [p]) p.links q)).1.length := rfl
      omega

theorem crawlStep_pages_le (cfg : CrawlConfig) (oracle : String → Option Page)
    (s : CrawlState) : s.pages.length ≤ (crawlStep cfg oracle s).pages.length := by
  simp only [crawlStep]
  exact integrate_pages_le cfg _ _ s.pages _

theorem crawlStep_queue_of_pages_eq (cfg : CrawlConfig) (oracle : String → Option Page)
    (s : CrawlState) (h : (crawlStep cfg oracle s).pages.length = s.pages.length) :
    (crawlStep cfg oracle s).queue = s.queue.drop (effectiveConcurrency cfg) := by
  simp only [crawlStep] at h ⊢
  exact integrate_queue_of_pages_eq cfg _ _ s.pages _ h

theorem effectiveConcurrency_pos (cfg : CrawlConfig) : 1 ≤ effectiveConcurrency cfg := by
  unfold effectiveConcurrency
  omega

theorem crawlDone_false_elim (cfg : CrawlConfig) (s : CrawlState)
    (h : ¬ crawlDone cfg s = true) :
    s.queue ≠ [] ∧ s.pages.length < cfg.maxPages := by
  unfold crawlDone at h
  constructor
  · intro he
    apply h
    rw [he]
    rfl
  · by_contra hge
    apply h
    have : cfg.maxPages ≤ s.pages.length := by omega
    simp [this]

/-- Model of the `crawlSite` while-loop (src/unnamed/part_000 lines
124-157).  Termination: every iteration either appends a page (and
`maxPages - pages.length` shrinks, since the loop only runs while the
page count is below the cap) or leaves the pages untouched, in which
case no link was enqueued and the queue lost its non-empty batch. -/
def crawlLoop (cfg : CrawlConfig) (oracle : String → Option Page) (s : CrawlState) :
    CrawlState :=
  if crawlDone cfg s then s
  else crawlLoop cfg oracle (crawlStep cfg oracle s)
termination_by (cfg.maxPages - s.pages.length, s.queue.length)
decreasing_by
  rename_i hnd
  have hqe := crawlDone_false_elim cfg s hnd
  rcases Nat.lt_or_ge s.pages.length (crawlStep cfg oracle s).pages.length with hlt | hge
  · exact Prod.Lex.left _ _ (Nat.sub_lt_sub_left hqe.2 hlt)
  · have heq : (crawlStep cfg oracle s).pages.length = s.pages.length :=
      le_antisymm hge (crawlStep_pages_le cfg oracle s)
    have hq : (crawlStep cfg oracle s).queue = s.queue.drop (effectiveConcurrency cfg) :=
      crawlStep_queue_of_pages_eq cfg oracle s heq
    rw [heq, hq]
    apply Prod.Lex.right
    rw [List.length_drop]
    have h1 := effectiveConcurrency_pos cfg
    have h2 : s.queue.length ≠ 0 := fun he => hqe.1 (List.eq_nil_of_length_eq_zero he)
    omega

/-- Initial frontier state (src/unnamed/part_000 lines 120-122). -/
def initState (cfg : CrawlConfig) : CrawlState :=
  { queue := cfg.seedUrls, visited := [], pages := [], log := [] }

/-- Model of `crawlSite` (src/unnamed/part_000 lines 119-160). -/
def crawlSite (cfg : CrawlConfig) (oracle : String → Option Page) : CrawlState :=
  crawlLoop cfg oracle (initState cfg)

/-! C9: termination of the crawl loop. -/

theorem pushLinks_capped (cfg : CrawlConfig) (visited : List String) (ps : List Page) :
    ∀ (ls q : List String), cfg.maxPages ≤ ps.length + q.length →
      pushLinks cfg visited ps ls q = q := by
  intro ls
  induction ls with
  | nil =>
    intro q _
    rfl
  | cons l ls ih =>
    intro q h
    simp only [pushLinks]
    rw [if_pos (Or.inl h)]
    exact ih q h

/-- C9: the crawl loop terminates with the loop guard false — the queue
has drained or the page count has reached `maxPages`, whichever came
first; while it runs, each iteration splices a non-empty batch (at
least one URL, since the clamped concurrency is at least 1) off the
front of the queue and only appends newly discovered links behind the
remainder; and no link is ever enqueued once the known work
`pages + queue` has reached `maxPages`. -/
theorem crawl_termination_spec (cfg : CrawlConfig) (oracle : String → Option Page)
    (hmp : 1 ≤ cfg.maxPages) :
    (∀ s, crawlDone cfg (crawlLoop cfg oracle s) = true)
    ∧ (∀ s, crawlDone cfg s = false →
        1 ≤ effectiveConcurrency cfg
        ∧ ∃ nw, (crawlStep cfg oracle s).queue
            = s.queue.drop (effectiveConcurrency cfg) ++ nw)
    ∧ (∀ (visited : List String) (ps : List Page) (ls q : List String),
        cfg.maxPages ≤ ps.length + q.length →
        pushLinks cfg visited ps ls q = q) := by
  refine ⟨?_, ?_, ?_⟩
  · intro s
    induction s using crawlLoop.induct cfg oracle with
    | case1 s hdone =>
      rw [crawlLoop, if_pos hdone]
      exact hdone
    | case2 s hnd ih =>
      rw [crawlLoop, if_neg hnd]
      exact ih
  · intro s _
    refine ⟨effectiveConcurrency_pos cfg, ?_⟩
    simp only [crawlStep]
    exact integrate_queue_append cfg _ _ s.pages _
  · intro visited ps ls q h
    exact pushLinks_capped cfg visited ps ls q h

/-! C3: which discovered links are enqueued. -/

theorem pushLinks_mem (cfg : CrawlConfig) (visited : List String) (ps : List Page) :
    ∀ (ls q : List String) (l : String), l ∈ pushLinks cfg visited ps ls q →
      l ∈ q ∨ jsStartsWith l cfg.origin = true := by
  intro ls
  induction ls with
  | nil =>
    intro q l h
    exact Or.inl h
  | cons link ls ih =>
    intro q l h
    simp only [pushLinks] at h
    split at h
    · exact ih q l h
    · split at h
      · rename_i hstart
        rcases ih (q ++ [link]) l h with hq | hs
        · rcases List.mem_append.mp hq with hq | hl
          · exact Or.inl hq
          · right
            have : l = link := by
              cases hl with
              | head => rfl
              | tail _ hm => cases hm
            rw [this]
            exact hstart
        · exact Or.inr hs
      · exact ih q l h

theorem integrate_queue_mem (cfg : CrawlConfig) (visited : List String) :
    ∀ (rs : List (Option Page)) (ps : List Page) (q : List String) (l : String),
      l ∈ (integrate cfg visited rs ps q).2 →
      l ∈ q ∨ jsStartsWith l cfg.origin = true := by
  intro rs
  induction rs with
  | nil =>
    intro ps q l h
    exact Or.inl h
  | cons r rs ih =>
    intro ps q l h
    cases r with
    | none => exact ih ps q l h
    | some p =>
      have h' : l ∈ (integrate cfg visited rs (ps ++ [p])
          (pushLinks cfg visited (ps ++ [p]) p.links q)).2 := h
      rcases ih _ _ l h' with hq | hs
      · exact pushLinks_mem cfg visited (ps ++ [p]) p.links q l hq
      · exact Or.inr hs

/-- C3 (amended): every URL the crawl loop adds to the queue from a
crawled page's discovered links starts with the configured origin
string — any link in the queue after a step, or after the whole loop,
was already queued or passes the `link.startsWith(config.origin)`
test. -/
theorem crawl_enqueue_origin_spec :
    (∀ (cfg : CrawlConfig) (oracle : String → Option Page) (s : CrawlState) (l : String),
      l ∈ (crawlStep cfg oracle s).queue →
      l ∈ s.queue ∨ jsStartsWith l cfg.origin = true)
    ∧ (∀ (cfg : CrawlConfig) (oracle : String → Option Page) (s : CrawlState) (l : String),
      l ∈ (crawlLoop cfg oracle s).queue →
      l ∈ s.queue ∨ jsStartsWith l cfg.origin = true) := by
  have hstep : ∀ (cfg : CrawlConfig) (oracle : String → Option Page) (s : CrawlState)
      (l : String), l ∈ (crawlStep cfg oracle s).queue →
      l ∈ s.queue ∨ jsStartsWith l cfg.origin = true := by
    intro cfg oracle s l h
    have h' : l ∈ (integrate cfg
        (processBatch oracle (s.queue.take (effectiveConcurrency cfg)) s.visited).2.1
        (processBatch oracle (s.queue.take (effectiveConcurrency cfg)) s.visited).1
        s.pages (s.queue.drop (effectiveConcurrency cfg))).2 := h
    rcases integrate_queue_mem cfg _ _ _ _ l h' with hq | hs
    · exact Or.inl (List.drop_subset _ _ hq)
    · exact Or.inr hs
  refine ⟨hstep, ?_⟩
  intro cfg oracle s
  induction s using crawlLoop.induct cfg oracle with
  | case1 s hdone =>
    intro l h
    rw [crawlLoop, if_pos hdone] at h
    exact Or.inl h
  | case2 s hnd ih =>
    intro l h
    rw [crawlLoop, if_neg hnd] at h
    rcases ih l h with hq | hs
    · exact hstep cfg oracle s l hq
    · exact Or.inr hs

/-- Page whose links escape the configured origin while passing the
string-prefix test. -/
def pageEvil : Page where
  url := "https://x.com/"
  title := "Home"
  description := ""
  summary := ""
  sections := []
  links := ["https://x.com.evil.org/p"]
  wordCount := 0

/-- Config with origin `https://x.com`. -/
def cfgEvil : CrawlConfig where
  url := "https://x.com/"
  origin := "https://x.com"
  siteName := "X"
  maxPages := 20
  maxFaqs := 80
  concurrency := 2
  minSectionChars := 180
  seedUrls := ["https://x.com/"]
  renderWithBrowser := true

/-- Oracle returning `pageEvil` for the seed and failure elsewhere. -/
def oracleEvil : String → Option Page :=
  fun u => if u = "https://x.com/" then some pageEvil else none

/-- Oracle on which every fetch/render fails. -/
def oracleNone : String → Option Page :=
  fun _ => none

/-- Initial state seeded with the start URL. -/
def sEvil : CrawlState where
  queue := ["https://x.com/"]
  visited := []
  pages := []
  log := []

/-- C3 counterexample: with origin `https://x.com`, the discovered link
`https://x.com.evil.org/p` passes the `startsWith` check and is
enqueued, yet its origin is `https://x.com.evil.org`, not the
configured origin — the enqueue filter is a string-prefix test, not a
same-origin test. -/
theorem enqueue_not_same_origin :
    "https://x.com.evil.org/p" ∈ (crawlStep cfgEvil oracleEvil sEvil).queue
    ∧ originOf "https://x.com.evil.org/p" = some "https://x.com.evil.org"
    ∧ cfgEvil.origin = "https://x.com"
    ∧ originOf "https://x.com.evil.org/p" ≠ some cfgEvil.origin := by
  refine ⟨by decide, by decide, by decide, by decide⟩

/-- Witness for C3 (amended) at a concrete step. -/
theorem crawl_enqueue_origin_spec_witness :
    "https://x.com.evil.org/p" ∈ sEvil.queue
    ∨ jsStartsWith "https://x.com.evil.org/p" cfgEvil.origin = true :=
  crawl_enqueue_origin_spec.1 cfgEvil oracleEvil sEvil "https://x.com.evil.org/p" (by decide)

/-! C7: the visited set and the fetch log stay duplicate-free. -/

/-- Crawl-run invariant: no duplicate visited URLs, no URL processed
(fetched/rendered) twice, and every processed URL is recorded
visited — so any later occurrence is skipped by the visited check
before any fetch. -/
def crawlInv (s : CrawlState) : Prop :=
  s.visited.Nodup ∧ s.log.Nodup ∧ ∀ x ∈ s.log, x ∈ s.visited

theorem processPage_visited (oracle : String → Option Page) (url : String)
    (visited : List String) (h : visited.Nodup) :
    (processPage oracle url visited).2.1.Nodup
    ∧ (∀ x ∈ visited, x ∈ (processPage oracle url visited).2.1)
    ∧ (processPage oracle url visited).2.2.Nodup
    ∧ ∀ x ∈ (processPage oracle url visited).2.2,
        x ∈ (processPage oracle url visited).2.1 ∧ x ∉ visited := by
  unfold processPage
  cases hn : normalizeUrl url with
  | none => exact ⟨h, fun x hx => hx, List.nodup_nil, by simp⟩
  | some nu =>
    dsimp only
    by_cases hv : nu ∈ visited
    · rw [if_pos hv]
      exact ⟨h, fun x hx => hx, List.nodup_nil, by simp⟩
    · rw [if_neg hv]
      refine ⟨List.nodup_cons.mpr ⟨hv, h⟩, fun x hx => List.mem_cons_of_mem _ hx, ?_, ?_⟩
      · simp
      · intro x hx
        have : x = nu := by
          cases hx with
          | head => rfl
          | tail _ hm => cases hm
        subst this
        exact ⟨List.mem_cons_self _ _, hv⟩

theorem processBatch_visited (oracle : String → Option Page) :
    ∀ (us : List String) (visited : List String), visited.Nodup →
      (processBatch oracle us visited).2.1.Nodup
      ∧ (∀ x ∈ visited, x ∈ (processBatch oracle us visited).2.1)
      ∧ (processBatch oracle us visited).2.2.Nodup
      ∧ ∀ x ∈ (processBatch oracle us visited).2.2,
          x ∈ (processBatch oracle us visited).2.1 ∧ x ∉ visited := by
  intro us
  induction us with
  | nil =>
    intro visited h
    exact ⟨h, fun x hx => hx, List.nodup_nil, by intro x hx; cases hx⟩
  | cons u us ih =>
    intro visited h
    obtain ⟨h1, h2, h3, h4⟩ := processPage_visited oracle u visited h
    obtain ⟨g1, g2, g3, g4⟩ := ih (processPage oracle u visited).2.1 h1
    refine ⟨g1, fun x hx => g2 x (h2 x hx), ?_, ?_⟩
    · show ((processPage oracle u visited).2.2 ++
        (processBatch oracle us (processPage oracle u visited).2.1).2.2).Nodup
      refine List.Nodup.append h3 g3 ?_
      intro a ha hb
      exact (g4 a hb).2 ((h4 a ha).1)
    · intro x hx
      rcases List.mem_append.mp hx with hx | hx
      · exact ⟨g2 x ((h4 x hx).1), (h4 x hx).2⟩
      · exact ⟨(g4 x hx).1, fun hv => (g4 x hx).2 (h2 x hv)⟩

theorem crawlStep_inv (cfg : CrawlConfig) (oracle : String → Option Page)
    (s : CrawlState) (h : crawlInv s) : crawlInv (crawlStep cfg oracle s) := by
  obtain ⟨hv, hl, hlv⟩ := h
  obtain ⟨g1, g2, g3, g4⟩ := processBatch_visited oracle
    (s.queue.take (effectiveConcurrency cfg)) s.visited hv
  refine ⟨g1, ?_, ?_⟩
  · show (s.log ++ (processBatch oracle
      (s.queue.take (effectiveConcurrency cfg)) s.visited).2.2).Nodup
    refine List.Nodup.append hl g3 ?_
    intro a ha hb
    exact (g4 a hb).2 (hlv a ha)
  · intro x hx
    rcases List.mem_append.mp hx with hx | hx
    · exact g2 x (hlv x hx)
    · exact (g4 x hx).1

/-- C7: throughout a crawl run the visited set contains no duplicate
normalized URLs and no URL is fetched or rendered more than once: the
invariant (visited duplicate-free, processing log duplicate-free,
every processed URL recorded visited so later occurrences are skipped
before any fetch) is preserved by every single iteration and by the
whole loop. -/
theorem crawl_visited_nodup_spec :
    (∀ (cfg : CrawlConfig) (oracle : String → Option Page) (s : CrawlState),
      crawlInv s → crawlInv (crawlStep cfg oracle s))
    ∧ (∀ (cfg : CrawlConfig) (oracle : String → Option Page) (s : CrawlState),
      crawlInv s → crawlInv (crawlLoop cfg oracle s)) := by
  refine ⟨crawlStep_inv, ?_⟩
  intro cfg oracle s
  induction s using crawlLoop.induct cfg oracle with
  | case1 s hdone =>
    intro h
    rw [crawlLoop, if_pos hdone]
    exact h
  | case2 s hnd ih =>
    intro h
    rw [crawlLoop, if_neg hnd]
    exact ih (crawlStep_inv cfg oracle s h)

/-- Witness for C7 from the seeded initial state. -/
theorem crawl_visited_nodup_spec_witness :
    crawlInv (crawlLoop cfgEvil oracleEvil sEvil) :=
  crawl_visited_nodup_spec.2 cfgEvil oracleEvil sEvil
    ⟨List.nodup_nil, List.nodup_nil, by intro x hx; cases hx⟩

/-! C8: the empty-crawl failure path of `main`. -/

/-- Outcome of `main` (src/unnamed/part_000 lines 24-48): either the
dataset was built and written to the output path, or the run printed a
single diagnostic and set a non-zero exit code before any dataset was
built.  Writing and the exit code are the only effects of the two
branches, so the outcome value models them. -/
inductive RunOutcome where
  | wroteDataset (dataset : Dataset)
  | fatalError (message : String)
deriving DecidableEq

/-- Model of `main` (src/unnamed/part_000 lines 24-48): crawl, abort
when no page was produced, otherwise build the dataset and write it. -/
def runMain (cfg : CrawlConfig) (oracle : String → Option Page) : RunOutcome :=
  if (crawlSite cfg oracle).pages.length = 0 then
    RunOutcome.fatalError "No pages were crawled successfully."
  else
    RunOutcome.wroteDataset (buildFaqDataset (crawlSite cfg oracle).pages cfg)

/-- C8: a crawl producing zero pages makes the run fail with the
empty-crawl error before the dataset is built — no output artifact and
a non-zero exit status — and the dataset is built and written exactly
when at least one page was crawled. -/
theorem empty_crawl_spec (cfg : CrawlConfig) (oracle : String → Option Page) :
    ((crawlSite cfg oracle).pages = [] →
      runMain cfg oracle = RunOutcome.fatalError "No pages were crawled successfully.")
    ∧ (∀ d, runMain cfg oracle = RunOutcome.wroteDataset d →
        1 ≤ (crawlSite cfg oracle).pages.length
        ∧ d = buildFaqDataset (crawlSite cfg oracle).pages cfg) := by
  constructor
  · intro h
    unfold runMain
    rw [if_pos (by rw [h]; rfl)]
  · intro d hd
    unfold runMain at hd
    by_cases h0 : (crawlSite cfg oracle).pages.length = 0
    · rw [if_pos h0] at hd
      cases hd
    · rw [if_neg h0] at hd
      injection hd with h1
      exact ⟨Nat.one_le_iff_ne_zero.mpr h0, h1.symm⟩

/-- Witness for C8: every fetch fails, so the run aborts. -/
theorem empty_crawl_spec_witness :
    runMain cfgEvil oracleNone = RunOutcome.fatalError "No pages were crawled successfully." :=
  (empty_crawl_spec cfgEvil oracleNone).1 (by
    show (crawlLoop cfgEvil oracleNone (initState cfgEvil)).pages = []
    rw [crawlLoop, if_neg (by decide)]
    rw [crawlLoop, if_pos (by decide)]
    decide)

/-- Witness for C9 at a concrete crawl. -/
theorem crawl_termination_spec_witness :
    crawlDone cfgEvil (crawlLoop cfgEvil oracleEvil sEvil) = true :=
  (crawl_termination_spec cfgEvil oracleEvil (by decide)).1 sEvil

end Scraper
